/-
Verification of the structure-viewer initialization and coloring subsystem of
the refua notebook lab extension (src/labextension/src/render.ts), as a
shallow embedding in Lean 4.

The embedding models JavaScript strings as Lean `String`s (lists of Unicode
characters); JS `atob` and `decodeURIComponent` are modelled as partial
(Option-valued) decoders following their specified behaviour, with a thrown
exception modelled as `none`.  Case folding (`toLowerCase`) is modelled for
ASCII letters, and the `\s` regex class / `String.prototype.trim` whitespace
class is modelled by the common JavaScript whitespace characters.
-/
import Mathlib

namespace Refua

/-- JavaScript whitespace (the `\s` regex class and `trim`'s class):
space, tab, LF, VT, FF, CR, NBSP, LS, PS, BOM. -/
def jsWs (c : Char) : Bool :=
  c = ' ' || c = '\t' || c = '\n' || c = '\x0b' || c = '\x0c' || c = '\r' ||
  c = '\u00A0' || c = '\u2028' || c = '\u2029' || c = '\uFEFF'

/-- ASCII whitespace, as stripped by the forgiving-base64 decoder (`atob`). -/
def asciiWs (c : Char) : Bool :=
  c = ' ' || c = '\t' || c = '\n' || c = '\x0c' || c = '\r'

/-- `String.prototype.trim` on a character list: strip leading and trailing
JavaScript whitespace. -/
def jsTrimChars (cs : List Char) : List Char :=
  ((cs.dropWhile jsWs).reverse.dropWhile jsWs).reverse

/-- `String.prototype.trim`. -/
def jsTrim (s : String) : String := ⟨jsTrimChars s.data⟩

/-- `String.prototype.toLowerCase`, for the ASCII letters that occur in
format names and data-URL metadata. -/
def jsLowerChars (cs : List Char) : List Char := cs.map Char.toLower

/-- `String.prototype.indexOf` for a single character, as an index option. -/
def idxOf (c : Char) : List Char → Option Nat
  | [] => none
  | x :: xs => if x = c then some 0 else (idxOf c xs).map (· + 1)

/-- `String.prototype.includes` on character lists: does `needle` occur
contiguously inside the second list? -/
def containsSeq (needle : List Char) : List Char → Bool
  | [] => needle.isEmpty
  | c :: rest => needle.isPrefixOf (c :: rest) || containsSeq needle rest

/-- Value of one base64 alphabet character. -/
def b64Val (c : Char) : Option Nat :=
  if 'A' ≤ c ∧ c ≤ 'Z' then some (c.toNat - 65)
  else if 'a' ≤ c ∧ c ≤ 'z' then some (c.toNat - 71)
  else if '0' ≤ c ∧ c ≤ '9' then some (c.toNat + 4)
  else if c = '+' then some 62
  else if c = '/' then some 63
  else none

/-- Pack a list of 6-bit groups into bytes (forgiving-base64: a trailing
group of 2 sextets yields 1 byte, of 3 sextets yields 2 bytes; leftover
bits are discarded). -/
def sextetsToBytes : List Nat → List Nat
  | a :: b :: c :: d :: rest =>
      (a * 4 + b / 16) :: ((b % 16) * 16 + c / 4) :: ((c % 4) * 64 + d) ::
        sextetsToBytes rest
  | [a, b] => [a * 4 + b / 16]
  | [a, b, c] => [a * 4 + b / 16, (b % 16) * 16 + c / 4]
  | [_] => []
  | [] => []

/-- Remove up to two trailing `=` padding characters. -/
def stripB64Pad (cs : List Char) : List Char :=
  match cs.reverse with
  | '=' :: '=' :: rest => rest.reverse
  | '=' :: rest => rest.reverse
  | _ => cs

/-- `window.atob`: the forgiving-base64 decoder.  Strips ASCII whitespace,
removes valid trailing padding, and fails (`none`, modelling the thrown
`InvalidCharacterError`) on a leftover length of 1 mod 4 or on any character
outside the base64 alphabet.  The result is the decoded byte string. -/
def atobChars (cs : List Char) : Option (List Char) := do
  let d := cs.filter (fun c => !asciiWs c)
  let d := if d.length % 4 = 0 then stripB64Pad d else d
  if d.length % 4 = 1 then none
  else
    let vals ← d.mapM b64Val
    some ((sextetsToBytes vals).map Char.ofNat)

/-- Value of a hexadecimal digit. -/
def hexVal (c : Char) : Option Nat :=
  if '0' ≤ c ∧ c ≤ '9' then some (c.toNat - 48)
  else if 'a' ≤ c ∧ c ≤ 'f' then some (c.toNat - 87)
  else if 'A' ≤ c ∧ c ≤ 'F' then some (c.toNat - 70)
  else none

/-- A token of a percent-encoded string: a literal character or an escaped
octet. -/
inductive PctTok where
  | lit (c : Char)
  | byte (b : Nat)
deriving Repr, DecidableEq

/-- Split a string into literal characters and `%XY` escaped octets;
fails on a `%` not followed by two hex digits. -/
def pctTokens : List Char → Option (List PctTok)
  | [] => some []
  | '%' :: rest =>
    match rest with
    | h1 :: h2 :: rest2 => do
        let a ← hexVal h1
        let b ← hexVal h2
        let ts ← pctTokens rest2
        some (PctTok.byte (16 * a + b) :: ts)
    | _ => none
  | c :: rest => do
      let ts ← pctTokens rest
      some (PctTok.lit c :: ts)

/-- Is `b` a UTF-8 continuation byte? -/
def utf8Cont (b : Nat) : Bool := 0x80 ≤ b && b < 0xC0

/-- Decode the token list: escaped octet runs must form valid UTF-8
(continuation bytes must themselves be escaped octets; overlong encodings,
surrogates and out-of-range code points are rejected), literal characters
pass through.  Failure models the thrown `URIError`. -/
def pctDetok : List PctTok → Option (List Char)
  | [] => some []
  | PctTok.lit c :: ts => do
      let r ← pctDetok ts
      some (c :: r)
  | PctTok.byte b :: ts =>
    if b < 0x80 then do
      let r ← pctDetok ts
      some (Char.ofNat b :: r)
    else if b < 0xE0 then
      match ts with
      | PctTok.byte b2 :: ts2 =>
        if utf8Cont b2 then
          let v := (b - 0xC0) * 64 + (b2 - 0x80)
          if 0x80 ≤ v then do
            let r ← pctDetok ts2
            some (Char.ofNat v :: r)
          else none
        else none
      | _ => none
    else if b < 0xF0 then
      match ts with
      | PctTok.byte b2 :: PctTok.byte b3 :: ts2 =>
        if utf8Cont b2 && utf8Cont b3 then
          let v := (b - 0xE0) * 4096 + (b2 - 0x80) * 64 + (b3 - 0x80)
          if 0x800 ≤ v ∧ ¬ (0xD800 ≤ v ∧ v ≤ 0xDFFF) then do
            let r ← pctDetok ts2
            some (Char.ofNat v :: r)
          else none
        else none
      | _ => none
    else if b < 0xF8 then
      match ts with
      | PctTok.byte b2 :: PctTok.byte b3 :: PctTok.byte b4 :: ts2 =>
        if utf8Cont b2 && utf8Cont b3 && utf8Cont b4 then
          let v := (b - 0xF0) * 262144 + (b2 - 0x80) * 4096 +
                   (b3 - 0x80) * 64 + (b4 - 0x80)
          if 0x10000 ≤ v ∧ v ≤ 0x10FFFF then do
            let r ← pctDetok ts2
            some (Char.ofNat v :: r)
          else none
        else none
      | _ => none
    else none

/-- `decodeURIComponent`, Option-valued. -/
def pctDecode (cs : List Char) : Option (List Char) := do
  let ts ← pctTokens cs
  pctDetok ts

/-- The decoded bounded sample of a data URL, mirroring the body of
`looksLikeTextCifDataUrl` (render.ts lines 144-165): `none` when the URL is
not a data URL, has no comma, or when decoding throws.  For a base64
payload: whitespace removed, first 4096 characters, padded to a multiple of
4, `atob`-decoded, first 512 bytes.  Otherwise: first 512 characters,
percent-decoded. -/
def dataUrlSample (u : String) : Option (List Char) :=
  let cs := u.data
  if "data:".data.isPrefixOf cs then
    match idxOf ',' cs with
    | none => none
    | some i =>
      let meta := jsLowerChars ((cs.take i).drop 5)
      let payload := cs.drop (i + 1)
      if containsSeq ";base64".data meta then
        let compact := payload.filter (fun c => !jsWs c)
        let chunk := compact.take 4096
        let padded := chunk ++ List.replicate ((4 - chunk.length % 4) % 4) '='
        (atobChars padded).map (fun s => s.take 512)
      else
        pctDecode (payload.take 512)
  else none

/-- Does a decoded, leading-whitespace-stripped sample start with one of the
textual CIF sentinel tokens `data_`, `loop_`, `_`? -/
def hasCifSentinel (t : List Char) : Bool :=
  "data_".data.isPrefixOf t || "loop_".data.isPrefixOf t ||
  "_".data.isPrefixOf t

/-- `looksLikeTextCifDataUrl` (render.ts lines 144-178): true iff the URL is
a data URL whose decodable payload prefix, after stripping leading
whitespace, is non-empty and starts with a textual CIF sentinel. -/
def looksLikeTextCifDataUrl (u : String) : Bool :=
  match dataUrlSample u with
  | none => false
  | some sample =>
    let trimmed := sample.dropWhile jsWs
    if trimmed = [] then false
    else hasCifSentinel trimmed

/-- A JavaScript value as it can reach the untrusted color-plan processing
code: a string, an integral number, a boolean, `null`, `undefined`, or an
array.  (Objects and non-integral numbers are not needed by any claim and
are omitted from the embedding.) -/
inductive JSVal where
  | vstr (s : String)
  | vnum (n : Int)
  | vbool (b : Bool)
  | vnull
  | vundefined
  | varr (xs : List JSVal)

mutual

/-- JavaScript `String(v)` coercion. -/
def jsString : JSVal → String
  | .vstr s => s
  | .vnum n => toString n
  | .vbool b => cond b "true" "false"
  | .vnull => "null"
  | .vundefined => "undefined"
  | .varr xs => joinElems xs

/-- `Array.prototype.toString`: elements joined with commas, `null` and
`undefined` elements rendering as the empty string. -/
def joinElems : List JSVal → String
  | [] => ""
  | [x] => jsElemString x
  | x :: xs => jsElemString x ++ "," ++ joinElems xs

/-- String form of one array element inside a join. -/
def jsElemString : JSVal → String
  | .vstr s => s
  | .vnum n => toString n
  | .vbool b => cond b "true" "false"
  | .vnull => ""
  | .vundefined => ""
  | .varr xs => joinElems xs

end

/-- `String(rawToken ?? '').trim()`: nullish values become the empty string,
anything else is coerced to a string; the result is trimmed. -/
def coerceToken (v : JSVal) : String :=
  match v with
  | .vnull => jsTrim ""
  | .vundefined => jsTrim ""
  | v => jsTrim (jsString v)

/-- Inner token loop of `normalizeChainGroups` (render.ts lines 190-198):
walk one raw group, coercing and trimming each member, dropping empty and
already-seen tokens, threading the `seen` set.  Returns the updated seen
set and the surviving tokens of this group, in order. -/
def normTokens (seen : List String) : List JSVal → List String × List String
  | [] => (seen, [])
  | t :: ts =>
    let token := coerceToken t
    if token = "" ∨ token ∈ seen then normTokens seen ts
    else
      let (s', ids) := normTokens (token :: seen) ts
      (s', token :: ids)

/-- Outer group loop of `normalizeChainGroups` (render.ts lines 186-202):
non-array group entries are skipped; a group is kept only if at least one
token survives; the `seen` set is threaded across groups, never reset. -/
def normGroups (seen : List String) : List JSVal → List (List String)
  | [] => []
  | g :: gs =>
    match g with
    | .varr toks =>
      let (s', ids) := normTokens seen toks
      if ids = [] then normGroups s' gs else ids :: normGroups s' gs
    | _ => normGroups seen gs

/-- `normalizeChainGroups` (render.ts lines 180-204): empty for any
non-array input; otherwise the de-duplicated, order-preserving groups. -/
def normalizeChainGroups : JSVal → List (List String)
  | .varr gs => normGroups [] gs
  | _ => []

/-- One alternative of a chain selector: `{ label_asym_id: t }` or
`{ auth_asym_id: t }`. -/
inductive SelectorEntry where
  | label_asym_id (t : String)
  | auth_asym_id (t : String)
deriving Repr, DecidableEq

/-- The de-duplication key of an alternative, modelling the JS template
string set keys (the string "label:" or "auth:" followed by the token) as
(scheme, token) pairs; the distinct scheme tags make the string keys
collision-free, so the pair encoding is exact. -/
def selKey : SelectorEntry → String × String
  | .label_asym_id t => ("label", t)
  | .auth_asym_id t => ("auth", t)

/-- A chain selector: either a single alternative object or a list of
alternatives (OR-semantics), as returned by `makeChainSelector`. -/
inductive ChainSelector where
  | one (e : SelectorEntry)
  | many (es : List SelectorEntry)
deriving Repr, DecidableEq

/-- The alternatives carried by a selector. -/
def selEntries : ChainSelector → List SelectorEntry
  | .one e => [e]
  | .many es => es

/-- Token loop of `makeChainSelector` (render.ts lines 214-229): for each
coerced, trimmed, non-empty token emit the internal-label alternative then
the author alternative, each skipped if its (scheme, token) key was already
seen in this call. -/
def selLoop (seen : List (String × String)) : List JSVal → List SelectorEntry
  | [] => []
  | r :: rs =>
    let token := coerceToken r
    if token = "" then selLoop seen rs
    else
      let labelKey := ("label", token)
      let (seen1, out1) :=
        if labelKey ∈ seen then (seen, ([] : List SelectorEntry))
        else (labelKey :: seen, [SelectorEntry.label_asym_id token])
      let authKey := ("auth", token)
      let (seen2, out2) :=
        if authKey ∈ seen1 then (seen1, ([] : List SelectorEntry))
        else (authKey :: seen1, [SelectorEntry.auth_asym_id token])
      out1 ++ out2 ++ selLoop seen2 rs

/-- `makeChainSelector` (render.ts lines 206-234): `null` for a non-array
or empty input and when no alternative survives; a bare object when exactly
one alternative resulted; otherwise the list of alternatives. -/
def makeChainSelector : JSVal → Option ChainSelector
  | .varr [] => none
  | .varr cs =>
    match selLoop [] cs with
    | [] => none
    | [e] => some (.one e)
    | es => some (.many es)
  | _ => none

/-- The selector of a scene component: either a chain selector built from a
plan group or one of the built-in role selectors ('protein', 'nucleic',
'ligand', 'ion', 'branched'). -/
inductive CompSelector where
  | chains (sel : ChainSelector)
  | builtin (role : String)
deriving Repr, DecidableEq

/-- One component emitted against the scene-builder capability, with the
representation, color, optional opacity and optional label subsequently
attached to it. -/
structure SceneComponent where
  selector : CompSelector
  repType : String
  color : String
  opacity : Option Nat
  label : Option String
deriving Repr, DecidableEq

/-- The 8-color protein palette (render.ts lines 253-262). -/
def proteinPalette : List String :=
  ["#2563eb", "#0891b2", "#7c3aed", "#0f766e", "#059669", "#f59e0b",
   "#dc2626", "#9333ea"]

/-- The 5-color ligand palette (render.ts line 263). -/
def ligandPalette : List String :=
  ["#db2777", "#c026d3", "#e11d48", "#be185d", "#ec4899"]

/-- `addChainRepresentation` (render.ts lines 236-250): null when the
selector is null, otherwise a component carrying the representation type,
color and opacity. -/
def addChainRep (chainIds : List String) (type color : String)
    (opacity : Option Nat) : Option SceneComponent :=
  (makeChainSelector (.varr (chainIds.map .vstr))).map
    (fun sel => ⟨.chains sel, type, color, opacity, none⟩)

/-- The protein-group loop: the n-th group gets the (n mod 8)-th protein
palette color, rendered as cartoon; a null selector emits nothing. -/
def proteinLoop (idx : Nat) : List (List String) → List SceneComponent
  | [] => []
  | g :: gs =>
    match addChainRep g "cartoon" (proteinPalette.getD (idx % 8) "") (some 1) with
    | none => proteinLoop (idx + 1) gs
    | some comp => comp :: proteinLoop (idx + 1) gs

/-- The nucleic-group loop: fixed color, cartoon. -/
def nucleicLoop : List (List String) → List SceneComponent
  | [] => []
  | g :: gs =>
    match addChainRep g "cartoon" "#f59e0b" (some 1) with
    | none => nucleicLoop gs
    | some comp => comp :: nucleicLoop gs

/-- The ligand-group loop (render.ts lines 299-310): the n-th group gets the
(n mod 5)-th ligand palette color, ball-and-stick; when a ligand display
name is supplied, the label is attached to the component of index 0 only
(and only when that component exists). -/
def ligandLoop (name : String) (idx : Nat) :
    List (List String) → List SceneComponent
  | [] => []
  | g :: gs =>
    match addChainRep g "ball_and_stick" (ligandPalette.getD (idx % 5) "")
        (some 1) with
    | none => ligandLoop name (idx + 1) gs
    | some comp =>
      (if name ≠ "" ∧ idx = 0 then { comp with label := some name } else comp)
        :: ligandLoop name (idx + 1) gs

/-- The ion-group loop: fixed color, ball-and-stick. -/
def ionLoop : List (List String) → List SceneComponent
  | [] => []
  | g :: gs =>
    match addChainRep g "ball_and_stick" "#14b8a6" (some 1) with
    | none => ionLoop gs
    | some comp => comp :: ionLoop gs

/-- The other-group loop: fixed color, ball-and-stick (no fallback). -/
def otherLoop : List (List String) → List SceneComponent
  | [] => []
  | g :: gs =>
    match addChainRep g "ball_and_stick" "#64748b" (some 1) with
    | none => otherLoop gs
    | some comp => comp :: otherLoop gs

/-- The externally supplied color plan, as the five fields read from the
parsed `data-color-plan` object; an absent field reads as `undefined`. -/
structure ColorPlan where
  protein_chain_groups : JSVal := .vundefined
  nucleic_chain_groups : JSVal := .vundefined
  ligand_chain_groups : JSVal := .vundefined
  ion_chain_groups : JSVal := .vundefined
  other_chain_groups : JSVal := .vundefined

/-- Protein block of `applyColorPlan` (render.ts lines 270-285). -/
def proteinComponents (plan : ColorPlan) : List SceneComponent :=
  let gs := normalizeChainGroups plan.protein_chain_groups
  if gs.length > 0 then proteinLoop 0 gs
  else [⟨.builtin "protein", "cartoon", "#2563eb", none, none⟩]

/-- Nucleic block of `applyColorPlan` (render.ts lines 287-296). -/
def nucleicComponents (plan : ColorPlan) : List SceneComponent :=
  let gs := normalizeChainGroups plan.nucleic_chain_groups
  if gs.length > 0 then nucleicLoop gs
  else [⟨.builtin "nucleic", "cartoon", "#f59e0b", none, none⟩]

/-- Ligand block of `applyColorPlan` (render.ts lines 298-319): with no
explicit groups, the fallback component selects the built-in 'ligand' role
and receives the label (when a name is supplied) before its representation
and color. -/
def ligandComponents (plan : ColorPlan) (name : String) : List SceneComponent :=
  let gs := normalizeChainGroups plan.ligand_chain_groups
  if gs.length > 0 then ligandLoop name 0 gs
  else [⟨.builtin "ligand", "ball_and_stick", "#db2777", none,
         if name ≠ "" then some name else none⟩]

/-- Ion block of `applyColorPlan` (render.ts lines 321-330). -/
def ionComponents (plan : ColorPlan) : List SceneComponent :=
  let gs := normalizeChainGroups plan.ion_chain_groups
  if gs.length > 0 then ionLoop gs
  else [⟨.builtin "ion", "ball_and_stick", "#14b8a6", none, none⟩]

/-- Branched entities (render.ts lines 332-335): always the built-in
'branched' role at a fixed color, regardless of the plan. -/
def branchedComponent : SceneComponent :=
  ⟨.builtin "branched", "ball_and_stick", "#84cc16", none, none⟩

/-- Other block of `applyColorPlan` (render.ts lines 337-339): explicit
groups only. -/
def otherComponents (plan : ColorPlan) : List SceneComponent :=
  otherLoop (normalizeChainGroups plan.other_chain_groups)

/-- `applyColorPlan` (render.ts lines 252-340): the components emitted
against the scene builder, in source order. -/
def applyColorPlan (plan : ColorPlan) (ligandName : String) :
    List SceneComponent :=
  proteinComponents plan ++ nucleicComponents plan ++
  ligandComponents plan ligandName ++ ionComponents plan ++
  [branchedComponent] ++ otherComponents plan

/-- The per-container render state and user-visible loading element state,
as recorded in DOM dataset attributes and the loading element
(`data-refua-rendered`, `data-refua-rendering`, `data-refua-loaded-format`,
`data-refua-loaded-path`, and the loading element's text and display
style).  A boolean flag models "attribute present with value 'true'". -/
structure Container where
  rendered : Bool := false
  rendering : Bool := false
  loadedFormat : Option String := none
  loadedPath : Option String := none
  loadingText : Option String := none
  loadingDisplay : Option String := none
deriving Repr, DecidableEq

/-- The host-supplied declarative attributes and DOM shape of one molstar
container: `data-url`, `data-format`, `data-ligand`, and whether the viewer
and loading child elements exist. -/
structure MolstarInputs where
  url : Option String := none
  formatAttr : Option String := none
  ligandAttr : Option String := none
  hasViewerEl : Bool := true
  hasLoadingEl : Bool := true

/-- Behaviour of the external capabilities for one initialization run:
whether the viewer node is connected at each attachment attempt, whether
`Viewer.create` throws synchronously or rejects, whether the MVS
(scene-description) extension is present and whether its load throws,
whether `loadStructureFromUrl` exists and whether the direct load throws. -/
structure ViewerEnv where
  connectedAt : Nat → Bool
  createSyncThrows : Bool := false
  createResolves : Bool := true
  mvsAvailable : Bool := true
  mvsThrows : Bool := false
  hasLoadFromUrl : Bool := true
  directThrows : Bool := false

/-- Observable interactions with the external capabilities, in order: a
deferred attachment attempt (one `requestAnimationFrame` boundary), a
resolved viewer creation, an MVS load attempt, and a call of
`loadStructureFromUrl` with its url, format and binary flag. -/
inductive RenderEvent where
  | deferAttempt
  | viewerCreated
  | mvsAttempt
  | directCall (url fmt : String) (isBinary : Bool)
deriving Repr, DecidableEq

/-- `container.getAttribute('data-format') || 'mmcif'` (render.ts line
98): a missing or empty attribute defaults to 'mmcif'. -/
def formatOf (inp : MolstarInputs) : String :=
  match inp.formatAttr with
  | none => "mmcif"
  | some s => if s = "" then "mmcif" else s

/-- `container.getAttribute('data-ligand') || ''` (render.ts line 99). -/
def ligandNameOf (inp : MolstarInputs) : String :=
  match inp.ligandAttr with
  | none => ""
  | some s => s

/-- `typeof url === 'string' && url.trim().startsWith('data:')`
(render.ts line 113). -/
def isInlineDataUrl (url : Option String) : Bool :=
  match url with
  | none => false
  | some u => "data:".data.isPrefixOf (jsTrimChars u.data)

/-- The sniff-normalized format of the MVS (scene-description) path
(render.ts lines 349-355): lowercased declared format, downgraded from
'bcif' to 'mmcif' when the source is an inline data URL that looks like
textual CIF. -/
def mvsNormalizedFormat (fmt : String) (url : Option String) : String :=
  let nf := jsLowerChars (if fmt = "" then "mmcif" else fmt).data
  let nf : String := ⟨nf⟩
  if nf = "bcif" ∧ isInlineDataUrl url ∧
      looksLikeTextCifDataUrl (url.getD "") then "mmcif"
  else nf

/-- The sniff-normalized (format, isBinary) pair of the direct path
(render.ts lines 382-396): same normalization, with the binary flag set by
'bcif' and cleared on downgrade. -/
def directLoadParams (fmt : String) (url : Option String) : String × Bool :=
  let nf := jsLowerChars (if fmt = "" then "mmcif" else fmt).data
  let nf : String := ⟨nf⟩
  let isBinary := nf = "bcif"
  if nf = "bcif" ∧ isInlineDataUrl url ∧
      looksLikeTextCifDataUrl (url.getD "") then ("mmcif", false)
  else (nf, isBinary)

/-- `loadWithMvs` (render.ts lines 342-376): false without an attempt when
the MVS extension is unavailable; false (exception caught, no container
update) when the attempt throws; otherwise true with the loaded format
recorded. -/
def loadWithMvs (inp : MolstarInputs) (env : ViewerEnv) (c : Container) :
    (Container × Bool) × List RenderEvent :=
  if ¬ env.mvsAvailable then ((c, false), [])
  else if env.mvsThrows then ((c, false), [.mvsAttempt])
  else
    let nf := mvsNormalizedFormat (formatOf inp) inp.url
    (({ c with loadedFormat := some nf }, true), [.mvsAttempt])

/-- `loadDirectly` (render.ts lines 378-405): throws (error) when the
viewer lacks `loadStructureFromUrl`; otherwise calls it with the
sniff-normalized format and binary flag, and on completion records the
loaded format and the loaded path 'direct'. -/
def loadDirectly (inp : MolstarInputs) (env : ViewerEnv) (c : Container) :
    Except Unit Container × List RenderEvent :=
  if ¬ env.hasLoadFromUrl then (.error (), [])
  else
    let u := inp.url.getD ""
    let p := directLoadParams (formatOf inp) inp.url
    if env.directThrows then (.error (), [.directCall u p.1 p.2])
    else
      (.ok { c with loadedFormat := some p.1, loadedPath := some "direct" },
       [.directCall u p.1 p.2])

/-- Success epilogue of the creation promise (render.ts lines 430-435):
hide the loading element, mark rendered, clear the rendering flag. -/
def finalizeLoad (inp : MolstarInputs) (c : Container) : Container :=
  { c with
    loadingDisplay := if inp.hasLoadingEl then some "none" else c.loadingDisplay,
    rendered := true,
    rendering := false }

/-- The promise `.catch` handler (render.ts lines 437-444): clear the
rendering flag and surface 'Failed to load structure'. -/
def loadRejected (inp : MolstarInputs) (c : Container) : Container :=
  { c with
    rendering := false,
    loadingText := if inp.hasLoadingEl then some "Failed to load structure"
                   else c.loadingText,
    loadingDisplay := if inp.hasLoadingEl then some "block"
                      else c.loadingDisplay }

/-- Body of the creation promise's `.then` (render.ts lines 422-436): try
the MVS path; on false fall back to the direct path once; record the loaded
path; finalize, or reject into the `.catch` handler when the direct path
throws. -/
def thenBody (inp : MolstarInputs) (env : ViewerEnv) (c : Container) :
    Container × List RenderEvent :=
  let ((c1, mvsOk), evs1) := loadWithMvs inp env c
  if mvsOk then
    (finalizeLoad inp { c1 with loadedPath := some "mvs" }, evs1)
  else
    match loadDirectly inp env c1 with
    | (.ok c2, evs2) => (finalizeLoad inp c2, evs1 ++ evs2)
    | (.error _, evs2) => (loadRejected inp c1, evs1 ++ evs2)

/-- The `try` block around viewer creation (render.ts lines 143-451): a
synchronous throw lands in the outer catch (clear the rendering flag, text
'Failed to render structure'); a rejected creation promise lands in
`.catch`; a resolved creation runs the then-body. -/
def tryBlock (inp : MolstarInputs) (env : ViewerEnv) (c : Container) :
    Container × List RenderEvent :=
  if env.createSyncThrows then
    ({ c with
       rendering := false,
       loadingText := if inp.hasLoadingEl then some "Failed to render structure"
                      else c.loadingText }, [])
  else if ¬ env.createResolves then (loadRejected inp c, [])
  else
    let (c2, evs) := thenBody inp env c
    (c2, .viewerCreated :: evs)

/-- The attachment gate `initializeViewer` (render.ts lines 129-141),
with the attempt counter replaced by the remaining-attempt count
(`remaining = 20 - attempt`, so `attempt >= 20` is `remaining = 0`): while
the node is not connected, defer up to `remaining` more attempts, then give
up, clearing the rendering flag and surfacing 'Failed to create viewer';
once connected, run the try block. -/
def gateLoop (inp : MolstarInputs) (env : ViewerEnv) (c : Container) :
    Nat → Nat → Container × List RenderEvent
  | remaining, attempt =>
    if env.connectedAt attempt then tryBlock inp env c
    else
      match remaining with
      | 0 =>
        ({ c with
           rendering := false,
           loadingText := if inp.hasLoadingEl then some "Failed to create viewer"
                          else c.loadingText,
           loadingDisplay := if inp.hasLoadingEl then some "block"
                             else c.loadingDisplay }, [])
      | r + 1 =>
        let (c', evs) := gateLoop inp env c r (attempt + 1)
        (c', .deferAttempt :: evs)

/-- One container's pass of `initMolstar` (render.ts lines 89-455): skip
when already rendered or rendering; surface 'No structure data' when the
url is missing/empty or the viewer element is absent; otherwise set the
rendering flag (synchronously, before any suspension point) and start the
attachment gate with 20 retries from attempt 0. -/
def initMolstarOne (inp : MolstarInputs) (env : ViewerEnv) (c0 : Container) :
    Container × List RenderEvent :=
  if c0.rendered ∨ c0.rendering then (c0, [])
  else
    let urlOk : Bool := match inp.url with
      | none => false
      | some u => u != ""
    if !urlOk || !inp.hasViewerEl then
      ({ c0 with loadingText := if inp.hasLoadingEl then some "No structure data"
                                else c0.loadingText }, [])
    else gateLoop inp env { c0 with rendering := true } 20 0

/-! ### Helper lemmas: trimming -/

theorem dropWhile_idem (p : Char → Bool) (l : List Char) :
    (l.dropWhile p).dropWhile p = l.dropWhile p := by
  induction l with
  | nil => simp
  | cons a l ih =>
    by_cases h : p a <;> simp [List.dropWhile_cons, h, ih]

theorem dropWhile_head_false (p : Char → Bool) (l : List Char) :
    ∀ a t, l.dropWhile p = a :: t → p a = false := by
  induction l with
  | nil => intro a t h; simp at h
  | cons b l ih =>
    intro a t h
    by_cases hb : p b
    · exact ih a t (by simpa [List.dropWhile_cons, hb] using h)
    · simp only [List.dropWhile_cons, if_neg hb] at h
      cases h
      simpa using hb

/-- The trimmed list is a prefix of the left-trimmed list (removing
trailing whitespace from `l.dropWhile jsWs` keeps any leading part). -/
theorem jsTrimChars_eq_left_trim (cs : List Char) :
    ∃ tail, cs.dropWhile jsWs = jsTrimChars cs ++ tail := by
  refine ⟨((cs.dropWhile jsWs).reverse.takeWhile jsWs).reverse, ?_⟩
  unfold jsTrimChars
  calc cs.dropWhile jsWs
      = (cs.dropWhile jsWs).reverse.reverse := by rw [List.reverse_reverse]
    _ = ((cs.dropWhile jsWs).reverse.takeWhile jsWs ++
          (cs.dropWhile jsWs).reverse.dropWhile jsWs).reverse := by
          rw [List.takeWhile_append_dropWhile]
    _ = ((cs.dropWhile jsWs).reverse.dropWhile jsWs).reverse ++
          ((cs.dropWhile jsWs).reverse.takeWhile jsWs).reverse := by
          rw [List.reverse_append]

theorem jsTrimChars_idem (cs : List Char) :
    jsTrimChars (jsTrimChars cs) = jsTrimChars cs := by
  have hrev : (jsTrimChars cs).reverse.dropWhile jsWs = (jsTrimChars cs).reverse := by
    unfold jsTrimChars
    simp [dropWhile_idem]
  have hleft : (jsTrimChars cs).dropWhile jsWs = jsTrimChars cs := by
    cases h : jsTrimChars cs with
    | nil => simp
    | cons a t =>
      obtain ⟨tail, htail⟩ := jsTrimChars_eq_left_trim cs
      rw [h] at htail
      have : jsWs a = false := dropWhile_head_false jsWs cs a (t ++ tail) (by simpa using htail)
      simp [List.dropWhile_cons, this]
  have expand : jsTrimChars (jsTrimChars cs) =
      (((jsTrimChars cs).dropWhile jsWs).reverse.dropWhile jsWs).reverse := rfl
  rw [expand, hleft, hrev, List.reverse_reverse]

theorem jsTrim_idem (s : String) : jsTrim (jsTrim s) = jsTrim s := by
  unfold jsTrim
  exact congrArg String.mk (jsTrimChars_idem s.data)

/-- Every coerced token is trim-fixed. -/
theorem coerceToken_trim_fixed (v : JSVal) :
    jsTrim (coerceToken v) = coerceToken v := by
  cases v <;> simp [coerceToken, jsTrim_idem]

/-! ### Helper lemmas: chain-group normalization -/

/-- The coerced, non-empty tokens of one raw group (non-array groups
contribute nothing). -/
def groupTokens : JSVal → List String
  | .varr ts => (ts.map coerceToken).filter (fun t => t != "")
  | _ => []

/-- The coerced, non-empty tokens of the whole raw group list, in order. -/
def rawChainTokens : JSVal → List String
  | .varr gs => (gs.map groupTokens).flatten
  | _ => []

/-- Order-preserving de-duplication keeping the FIRST occurrence of each
token, threading a seen set. -/
def firstDedupAux (seen : List String) : List String → List String
  | [] => []
  | t :: ts =>
    if t ∈ seen then firstDedupAux seen ts
    else t :: firstDedupAux (t :: seen) ts

/-- The seen set after de-duplicating a token list. -/
def dedupSeen (seen : List String) : List String → List String
  | [] => seen
  | t :: ts =>
    if t ∈ seen then dedupSeen seen ts else dedupSeen (t :: seen) ts

/-- Order-preserving de-duplication keeping the first occurrence. -/
def firstDedup (l : List String) : List String := firstDedupAux [] l

theorem normTokens_eq_firstDedup (ts : List JSVal) :
    ∀ seen : List String,
      normTokens seen ts =
        (dedupSeen seen ((ts.map coerceToken).filter (fun t => t != "")),
         firstDedupAux seen ((ts.map coerceToken).filter (fun t => t != ""))) := by
  induction ts with
  | nil => intro seen; simp [normTokens, dedupSeen, firstDedupAux]
  | cons t ts ih =>
    intro seen
    by_cases he : coerceToken t = ""
    · simp [normTokens, he, ih]
    · by_cases hs : coerceToken t ∈ seen
      · simp [normTokens, he, hs, ih, dedupSeen, firstDedupAux]
      · simp [normTokens, he, hs, ih, dedupSeen, firstDedupAux]

theorem firstDedupAux_append (l1 l2 : List String) :
    ∀ seen, firstDedupAux seen (l1 ++ l2) =
      firstDedupAux seen l1 ++ firstDedupAux (dedupSeen seen l1) l2 := by
  induction l1 with
  | nil => intro seen; simp [firstDedupAux, dedupSeen]
  | cons t l1 ih =>
    intro seen
    by_cases hs : t ∈ seen <;> simp [firstDedupAux, dedupSeen, hs, ih]

theorem normGroups_flatten (gs : List JSVal) :
    ∀ seen, (normGroups seen gs).flatten =
      firstDedupAux seen ((gs.map groupTokens).flatten) := by
  induction gs with
  | nil => intro seen; simp [normGroups, firstDedupAux]
  | cons g gs ih =>
    intro seen
    cases g with
    | varr toks =>
      rw [normGroups]
      simp only [normTokens_eq_firstDedup]
      rw [List.map_cons, List.flatten_cons]
      rw [show groupTokens (JSVal.varr toks) =
            (toks.map coerceToken).filter (fun t => t != "") from rfl]
      rw [firstDedupAux_append]
      by_cases hnil :
          firstDedupAux seen ((toks.map coerceToken).filter (fun t => t != "")) = []
      · rw [if_pos hnil, ih, hnil, List.nil_append]
      · rw [if_neg hnil, List.flatten_cons, ih]
    | vstr s => simp [normGroups, ih, groupTokens]
    | vnum n => simp [normGroups, ih, groupTokens]
    | vbool b => simp [normGroups, ih, groupTokens]
    | vnull => simp [normGroups, ih, groupTokens]
    | vundefined => simp [normGroups, ih, groupTokens]

theorem firstDedupAux_nodup (l : List String) :
    ∀ seen, (firstDedupAux seen l).Nodup ∧
      ∀ t ∈ firstDedupAux seen l, t ∉ seen := by
  induction l with
  | nil => intro seen; simp [firstDedupAux]
  | cons t ts ih =>
    intro seen
    by_cases hs : t ∈ seen
    · simpa [firstDedupAux, hs] using ih seen
    · obtain ⟨hnd, hmem⟩ := ih (t :: seen)
      refine ⟨?_, ?_⟩
      · simp only [firstDedupAux, if_neg hs, List.nodup_cons]
        exact ⟨fun hin => (hmem t hin) (by simp), hnd⟩
      · intro x hx
        simp only [firstDedupAux, if_neg hs, List.mem_cons] at hx
        rcases hx with rfl | hx
        · exact hs
        · intro hxs
          exact hmem x hx (by simp [hxs])

theorem normalizeChainGroups_flatten_nodup (v : JSVal) :
    ((normalizeChainGroups v).flatten).Nodup := by
  cases v with
  | varr gs =>
    rw [normalizeChainGroups, normGroups_flatten]
    exact (firstDedupAux_nodup _ []).1
  | vstr s => simp [normalizeChainGroups]
  | vnum n => simp [normalizeChainGroups]
  | vbool b => simp [normalizeChainGroups]
  | vnull => simp [normalizeChainGroups]
  | vundefined => simp [normalizeChainGroups]

theorem firstDedupAux_subset (l : List String) :
    ∀ seen t, t ∈ firstDedupAux seen l → t ∈ l := by
  induction l with
  | nil => intro seen t h; simp [firstDedupAux] at h
  | cons a as ih =>
    intro seen t h
    by_cases hs : a ∈ seen
    · exact List.mem_cons_of_mem a (ih seen t (by simpa [firstDedupAux, hs] using h))
    · simp only [firstDedupAux, if_neg hs, List.mem_cons] at h
      rcases h with rfl | h
      · exact List.mem_cons_self t as
      · exact List.mem_cons_of_mem a (ih (a :: seen) t h)

/-- A group token surviving normalization is non-empty and trim-fixed. -/
def goodGroup (g : List String) : Prop :=
  g ≠ [] ∧ ∀ t ∈ g, t ≠ "" ∧ jsTrim t = t

theorem normTokens_good (ts : List JSVal) (seen : List String) :
    ∀ t ∈ (normTokens seen ts).2, t ≠ "" ∧ jsTrim t = t := by
  intro t ht
  rw [normTokens_eq_firstDedup] at ht
  have hmem := firstDedupAux_subset _ _ _ ht
  simp only [List.mem_filter, List.mem_map] at hmem
  obtain ⟨⟨v, _, rfl⟩, hne⟩ := hmem
  exact ⟨by simpa using hne, coerceToken_trim_fixed v⟩

theorem normGroups_good (gs : List JSVal) :
    ∀ seen g, g ∈ normGroups seen gs → goodGroup g := by
  induction gs with
  | nil => intro seen g h; simp [normGroups] at h
  | cons x xs ih =>
    intro seen g h
    cases x with
    | varr toks =>
      rw [normGroups] at h
      rcases hp : normTokens seen toks with ⟨s', ids⟩
      rw [hp] at h
      dsimp only at h
      by_cases hnil : ids = []
      · rw [if_pos hnil] at h
        exact ih _ g h
      · rw [if_neg hnil] at h
        rcases List.mem_cons.mp h with rfl | h
        · refine ⟨hnil, ?_⟩
          have := normTokens_good toks seen
          rw [hp] at this
          exact this
        · exact ih _ g h
    | vstr s => exact ih _ g (by simpa [normGroups] using h)
    | vnum n => exact ih _ g (by simpa [normGroups] using h)
    | vbool b => exact ih _ g (by simpa [normGroups] using h)
    | vnull => exact ih _ g (by simpa [normGroups] using h)
    | vundefined => exact ih _ g (by simpa [normGroups] using h)

theorem normalizeChainGroups_good (v : JSVal) :
    ∀ g ∈ normalizeChainGroups v, goodGroup g := by
  cases v with
  | varr gs => exact fun g h => normGroups_good gs [] g h
  | vstr s => intro g h; simp [normalizeChainGroups] at h
  | vnum n => intro g h; simp [normalizeChainGroups] at h
  | vbool b => intro g h; simp [normalizeChainGroups] at h
  | vnull => intro g h; simp [normalizeChainGroups] at h
  | vundefined => intro g h; simp [normalizeChainGroups] at h

/-! ### Helper lemmas: selector construction -/

theorem coerceToken_vstr (t : String) : coerceToken (.vstr t) = jsTrim t := rfl

theorem selLoop_good_cons (t : String) (rest : List JSVal)
    (ht : t ≠ "") (hfix : jsTrim t = t) :
    selLoop [] (.vstr t :: rest) =
      .label_asym_id t :: .auth_asym_id t ::
        selLoop [("auth", t), ("label", t)] rest := by
  rw [selLoop, coerceToken_vstr, hfix]
  simp [ht]

theorem makeChainSelector_good (g : List String) (hg : goodGroup g) :
    ∃ sel, makeChainSelector (.varr (g.map .vstr)) = some sel := by
  obtain ⟨hne, htok⟩ := hg
  cases g with
  | nil => exact absurd rfl hne
  | cons t rest =>
    obtain ⟨ht, hfix⟩ := htok t (List.mem_cons_self t rest)
    rw [List.map_cons]
    rw [show makeChainSelector (.varr (JSVal.vstr t :: rest.map .vstr)) =
        (match selLoop [] (.vstr t :: rest.map .vstr) with
         | [] => none
         | [e] => some (.one e)
         | es => some (.many es)) from rfl]
    rw [selLoop_good_cons t _ ht hfix]
    exact ⟨_, rfl⟩

theorem addChainRep_good (g : List String) (hg : goodGroup g)
    (type color : String) (op : Option Nat) :
    ∃ sel, addChainRep g type color op =
      some ⟨.chains sel, type, color, op, none⟩ := by
  obtain ⟨sel, hsel⟩ := makeChainSelector_good g hg
  exact ⟨sel, by rw [addChainRep, hsel, Option.map_some']⟩

/-- Count of tokens not yet in the seen set, adding each new one. -/
def newTokenCount (seen : List String) : List String → Nat
  | [] => 0
  | t :: ts =>
    if t ∈ seen then newTokenCount seen ts
    else 1 + newTokenCount (t :: seen) ts

/-- The number of distinct non-empty coerced-and-trimmed tokens of an input
list. -/
def distinctCount (cs : List JSVal) : Nat :=
  (groupTokens (.varr cs)).toFinset.card

theorem selLoop_length (cs : List JSVal) :
    ∀ (seen : List (String × String)) (S : List String),
      (∀ t, (("label", t) ∈ seen ↔ t ∈ S)) →
      (∀ t, (("auth", t) ∈ seen ↔ t ∈ S)) →
      (selLoop seen cs).length =
        2 * newTokenCount S ((cs.map coerceToken).filter (fun t => t != "")) := by
  induction cs with
  | nil => intro seen S _ _; simp [selLoop, newTokenCount]
  | cons r rs ih =>
    intro seen S hlab hauth
    by_cases he : coerceToken r = ""
    · simp only [selLoop, if_pos he, List.map_cons, List.filter_cons]
      simp [he, ih seen S hlab hauth]
    · by_cases hS : coerceToken r ∈ S
      · have hl : ("label", coerceToken r) ∈ seen := (hlab _).mpr hS
        have ha : ("auth", coerceToken r) ∈ seen := (hauth _).mpr hS
        simp only [selLoop, if_neg he, if_pos hl, if_pos ha]
        simp only [List.map_cons, List.filter_cons]
        have : (coerceToken r != "") = true := by simpa using he
        rw [this]
        simp only [if_pos rfl, newTokenCount, if_pos hS]
        exact ih seen S hlab hauth
      · have hl : ("label", coerceToken r) ∉ seen := fun h => hS ((hlab _).mp h)
        have ha : ("auth", coerceToken r) ∉ seen := fun h => hS ((hauth _).mp h)
        have ha1 : ("auth", coerceToken r) ∉ (("label", coerceToken r) :: seen) := by
          intro h
          rcases List.mem_cons.mp h with heq | hmem
          · simp at heq
          · exact ha hmem
        simp only [selLoop, if_neg he, if_neg hl, if_neg ha1]
        simp only [List.map_cons, List.filter_cons]
        have he' : (coerceToken r != "") = true := by simpa using he
        rw [he']
        simp only [if_pos rfl, newTokenCount, if_neg hS]
        have hlab' : ∀ t, (("label", t) ∈
            (("auth", coerceToken r) :: ("label", coerceToken r) :: seen) ↔
              t ∈ coerceToken r :: S) := by
          intro t
          by_cases hw : t = coerceToken r
          · subst hw; simp
          · simp [List.mem_cons, Prod.mk.injEq, hw, hlab t]
        have hauth' : ∀ t, (("auth", t) ∈
            (("auth", coerceToken r) :: ("label", coerceToken r) :: seen) ↔
              t ∈ coerceToken r :: S) := by
          intro t
          by_cases hw : t = coerceToken r
          · subst hw; simp
          · simp [List.mem_cons, Prod.mk.injEq, hw, hauth t]
        simp only [List.length_append, List.length_singleton]
        rw [ih _ _ hlab' hauth']
        omega

theorem card_insert_erase (s : Finset String) (t : String) :
    (insert t s).card = (s.erase t).card + 1 := by
  by_cases h : t ∈ s
  · rw [Finset.insert_eq_self.mpr h, Finset.card_erase_add_one h]
  · rw [Finset.card_insert_of_not_mem h, Finset.erase_eq_of_not_mem h]

theorem newTokenCount_card (l : List String) :
    ∀ S : List String,
      newTokenCount S l = (l.toFinset \ S.toFinset).card := by
  induction l with
  | nil => intro S; simp [newTokenCount]
  | cons t ts ih =>
    intro S
    by_cases h : t ∈ S
    · rw [newTokenCount, if_pos h, ih S, List.toFinset_cons,
        Finset.insert_sdiff_of_mem _ (List.mem_toFinset.mpr h)]
    · rw [newTokenCount, if_neg h, ih (t :: S), List.toFinset_cons,
        List.toFinset_cons, Finset.sdiff_insert,
        Finset.insert_sdiff_of_not_mem _ (fun hc => h (List.mem_toFinset.mp hc)),
        card_insert_erase, Nat.add_comm]

theorem selLoop_length_distinct (cs : List JSVal) :
    (selLoop [] cs).length = 2 * distinctCount cs := by
  rw [selLoop_length cs [] [] (by simp) (by simp), newTokenCount_card]
  simp [distinctCount, groupTokens]

theorem selLoop_nodup (cs : List JSVal) :
    ∀ seen, ((selLoop seen cs).map selKey).Nodup ∧
      ∀ e ∈ selLoop seen cs, selKey e ∉ seen := by
  induction cs with
  | nil => intro seen; simp [selLoop]
  | cons r rs ih =>
    intro seen
    by_cases he : coerceToken r = ""
    · simpa [selLoop, he] using ih seen
    · by_cases hl : ("label", coerceToken r) ∈ seen
      · by_cases ha : ("auth", coerceToken r) ∈ seen
        · simpa [selLoop, he, hl, ha] using ih seen
        · obtain ⟨hnd, hmem⟩ := ih (("auth", coerceToken r) :: seen)
          simp only [selLoop, if_neg he, if_pos hl, if_neg ha, List.nil_append,
            List.singleton_append, List.map_cons, List.nodup_cons]
          refine ⟨⟨?_, hnd⟩, ?_⟩
          · intro hc
            simp only [List.mem_map] at hc
            obtain ⟨e, hin, hkey⟩ := hc
            have hk : selKey e = ("auth", coerceToken r) := by
              simpa [selKey] using hkey
            exact hmem e hin (by rw [hk]; exact List.mem_cons_self _ _)
          · intro e hin
            rcases List.mem_cons.mp hin with rfl | hin
            · simpa [selKey] using ha
            · intro hc
              exact hmem e hin (List.mem_cons_of_mem _ hc)
      · by_cases ha : ("auth", coerceToken r) ∈ (("label", coerceToken r) :: seen)
        · obtain ⟨hnd, hmem⟩ := ih (("label", coerceToken r) :: seen)
          simp only [selLoop, if_neg he, if_neg hl, if_pos ha, List.nil_append,
            List.singleton_append, List.map_cons, List.nodup_cons]
          refine ⟨⟨?_, hnd⟩, ?_⟩
          · intro hc
            simp only [List.mem_map] at hc
            obtain ⟨e, hin, hkey⟩ := hc
            have hk : selKey e = ("label", coerceToken r) := by
              simpa [selKey] using hkey
            exact hmem e hin (by rw [hk]; exact List.mem_cons_self _ _)
          · intro e hin
            rcases List.mem_cons.mp hin with rfl | hin
            · simpa [selKey] using hl
            · intro hc
              exact hmem e hin (List.mem_cons_of_mem _ hc)
        · obtain ⟨hnd, hmem⟩ :=
            ih (("auth", coerceToken r) :: ("label", coerceToken r) :: seen)
          simp only [selLoop, if_neg he, if_neg hl, if_neg ha,
            List.singleton_append, List.cons_append, List.nil_append,
            List.map_cons, List.nodup_cons]
          refine ⟨⟨?_, ?_, hnd⟩, ?_⟩
          · intro hc
            rcases List.mem_cons.mp hc with heq | hc
            · simp [selKey] at heq
            · simp only [List.mem_map] at hc
              obtain ⟨e, hin, hkey⟩ := hc
              have hk : selKey e = ("label", coerceToken r) := by
                simpa [selKey] using hkey
              exact hmem e hin
                (by rw [hk]; exact List.mem_cons_of_mem _ (List.mem_cons_self _ _))
          · intro hc
            simp only [List.mem_map] at hc
            obtain ⟨e, hin, hkey⟩ := hc
            have hk : selKey e = ("auth", coerceToken r) := by
              simpa [selKey] using hkey
            exact hmem e hin (by rw [hk]; exact List.mem_cons_self _ _)
          · intro e hin
            rcases List.mem_cons.mp hin with rfl | hin
            · simpa [selKey] using hl
            · rcases List.mem_cons.mp hin with rfl | hin
              · intro hc
                exact ha (List.mem_cons_of_mem _ (by simpa [selKey] using hc))
              · intro hc
                exact hmem e hin
                  (List.mem_cons_of_mem _ (List.mem_cons_of_mem _ hc))

/-! ### Helper lemmas: scene planner -/

theorem loops_length (gs : List (List String)) (hg : ∀ g ∈ gs, goodGroup g) :
    ∀ idx name,
      (proteinLoop idx gs).length = gs.length ∧
      (nucleicLoop gs).length = gs.length ∧
      (ligandLoop name idx gs).length = gs.length ∧
      (ionLoop gs).length = gs.length ∧
      (otherLoop gs).length = gs.length := by
  induction gs with
  | nil => intro idx name; simp [proteinLoop, nucleicLoop, ligandLoop, ionLoop, otherLoop]
  | cons g gs ih =>
    intro idx name
    have hgood := hg g (List.mem_cons_self g gs)
    have hrest := fun g' h => hg g' (List.mem_cons_of_mem g h)
    obtain ⟨ih1, ih2, ih3, ih4, ih5⟩ := ih hrest (idx + 1) name
    obtain ⟨s1, h1⟩ := addChainRep_good g hgood "cartoon"
      (proteinPalette.getD (idx % 8) "") (some 1)
    obtain ⟨s2, h2⟩ := addChainRep_good g hgood "cartoon" "#f59e0b" (some 1)
    obtain ⟨s3, h3⟩ := addChainRep_good g hgood "ball_and_stick"
      (ligandPalette.getD (idx % 5) "") (some 1)
    obtain ⟨s4, h4⟩ := addChainRep_good g hgood "ball_and_stick" "#14b8a6" (some 1)
    obtain ⟨s5, h5⟩ := addChainRep_good g hgood "ball_and_stick" "#64748b" (some 1)
    refine ⟨?_, ?_, ?_, ?_, ?_⟩
    · rw [proteinLoop, h1]; simpa using ih1
    · rw [nucleicLoop, h2]; simpa using ih2
    · rw [ligandLoop, h3]; simpa using ih3
    · rw [ionLoop, h4]; simpa using ih4
    · rw [otherLoop, h5]; simpa using ih5

theorem ligandLoop_fields (gs : List (List String)) (hg : ∀ g ∈ gs, goodGroup g) :
    ∀ idx name i comp, (ligandLoop name idx gs).get? i = some comp →
      comp.repType = "ball_and_stick" ∧
      comp.color = ligandPalette.getD ((idx + i) % 5) "" ∧
      comp.opacity = some 1 ∧
      comp.label = (if name ≠ "" ∧ idx + i = 0 then some name else none) := by
  induction gs with
  | nil => intro idx name i comp h; simp [ligandLoop] at h
  | cons g gs ih =>
    intro idx name i comp h
    have hgood := hg g (List.mem_cons_self g gs)
    have hrest := fun g' hm => hg g' (List.mem_cons_of_mem g hm)
    obtain ⟨s3, h3⟩ := addChainRep_good g hgood "ball_and_stick"
      (ligandPalette.getD (idx % 5) "") (some 1)
    simp only [ligandLoop, h3] at h
    cases i with
    | zero =>
      simp only [List.get?] at h
      by_cases hn : name ≠ "" ∧ idx = 0
      · rw [if_pos hn] at h
        cases h
        refine ⟨rfl, by simp, rfl, ?_⟩
        rw [if_pos (show name ≠ "" ∧ idx + 0 = 0 from ⟨hn.1, by omega⟩)]
      · rw [if_neg hn] at h
        cases h
        refine ⟨rfl, by simp, rfl, ?_⟩
        rw [if_neg (show ¬ (name ≠ "" ∧ idx + 0 = 0) by simpa using hn)]
    | succ j =>
      simp only [List.get?] at h
      have := ih hrest (idx + 1) name j comp h
      have harith : idx + 1 + j = idx + (j + 1) := by omega
      rw [harith] at this
      exact this

/-! ### Helper lemmas: viewer controller -/

theorem directParams_fst_eq_mvsFormat (fmt : String) (url : Option String) :
    (directLoadParams fmt url).1 = mvsNormalizedFormat fmt url := by
  simp only [directLoadParams, mvsNormalizedFormat]
  split <;> split <;> rfl

theorem gateLoop_never_connected (inp : MolstarInputs) (env : ViewerEnv)
    (hnc : ∀ n, env.connectedAt n = false) :
    ∀ (r a : Nat) (c : Container),
      gateLoop inp env c r a =
        ({ c with
           rendering := false,
           loadingText := if inp.hasLoadingEl then some "Failed to create viewer"
                          else c.loadingText,
           loadingDisplay := if inp.hasLoadingEl then some "block"
                             else c.loadingDisplay },
         List.replicate r .deferAttempt) := by
  intro r
  induction r with
  | zero =>
    intro a c
    rw [gateLoop]
    simp [hnc a]
  | succ n ih =>
    intro a c
    rw [gateLoop]
    simp only [hnc a, Bool.false_eq_true, if_false]
    rw [ih (a + 1) c]
    simp [List.replicate]

theorem tryBlock_state (inp : MolstarInputs) (env : ViewerEnv) (c : Container) :
    (tryBlock inp env c).1.rendering = false ∧
    ((tryBlock inp env c).1.rendered = true ∨
      (tryBlock inp env c).1.rendered = c.rendered) := by
  cases hc1 : env.createSyncThrows <;> cases hc2 : env.createResolves <;>
    cases hc3 : env.mvsAvailable <;> cases hc4 : env.mvsThrows <;>
      cases hc5 : env.hasLoadFromUrl <;> cases hc6 : env.directThrows <;>
        simp [tryBlock, thenBody, finalizeLoad, loadRejected, loadWithMvs,
          loadDirectly, hc1, hc2, hc3, hc4, hc5, hc6]

theorem gateLoop_state (inp : MolstarInputs) (env : ViewerEnv) :
    ∀ (r a : Nat) (c : Container),
      (gateLoop inp env c r a).1.rendering = false ∧
      ((gateLoop inp env c r a).1.rendered = true ∨
        (gateLoop inp env c r a).1.rendered = c.rendered) := by
  intro r
  induction r with
  | zero =>
    intro a c
    rw [gateLoop]
    by_cases h : env.connectedAt a
    · simpa [h] using tryBlock_state inp env c
    · simp [h]
  | succ n ih =>
    intro a c
    rw [gateLoop]
    by_cases h : env.connectedAt a
    · simpa [h] using tryBlock_state inp env c
    · simpa [h] using ih (a + 1) c

/-! ### Claim theorems -/

/-- Claim C4: a chain token appearing in two different groups of the same
role's raw group list is retained only in the first group (in input order)
and is absent from all later groups of the normalized output, for all
orderings: the normalized groups are pairwise disjoint, and their
concatenation is exactly the first-occurrence de-duplication of the raw
token stream, with the de-duplication set shared across all groups of one
normalize call (never reset between groups). -/
theorem C4_global_dedup (v : JSVal) :
    List.Pairwise List.Disjoint (normalizeChainGroups v) ∧
    (normalizeChainGroups v).flatten = firstDedup (rawChainTokens v) := by
  constructor
  · exact ((List.nodup_flatten).mp (normalizeChainGroups_flatten_nodup v)).2
  · cases v with
    | varr gs =>
      rw [normalizeChainGroups, normGroups_flatten]
      rfl
    | vstr s => rfl
    | vnum n => rfl
    | vbool b => rfl
    | vnull => rfl
    | vundefined => rfl

/-- Witness for C4 at a concrete input with a token repeated across two
groups. -/
theorem C4_global_dedup_witness :
    List.Pairwise List.Disjoint
      (normalizeChainGroups
        (.varr [.varr [.vstr "A", .vstr "B"], .varr [.vstr "A", .vstr "C"]])) ∧
    (normalizeChainGroups
        (.varr [.varr [.vstr "A", .vstr "B"],
                .varr [.vstr "A", .vstr "C"]])).flatten =
      firstDedup (rawChainTokens
        (.varr [.varr [.vstr "A", .vstr "B"], .varr [.vstr "A", .vstr "C"]])) :=
  C4_global_dedup
    (.varr [.varr [.vstr "A", .vstr "B"], .varr [.vstr "A", .vstr "C"]])

/-- Claim C6: `makeChainSelector` returns null for the empty list and for
null input; on `["A","A"]` it returns exactly two alternatives, the
internal-label alternative then the author alternative for "A", not four;
and in general each (scheme, token) pair is emitted at most once per
call. -/
theorem C6_selector_dedup :
    makeChainSelector (.varr []) = none ∧
    makeChainSelector .vnull = none ∧
    makeChainSelector (.varr [.vstr "A", .vstr "A"]) =
      some (.many [.label_asym_id "A", .auth_asym_id "A"]) ∧
    ∀ v sel, makeChainSelector v = some sel →
      ((selEntries sel).map selKey).Nodup := by
  refine ⟨rfl, rfl, by decide, ?_⟩
  intro v sel hsel
  cases v with
  | varr cs =>
    cases cs with
    | nil => cases hsel
    | cons a as =>
      rw [show makeChainSelector (.varr (a :: as)) =
          (match selLoop [] (a :: as) with
           | [] => none
           | [e] => some (.one e)
           | es => some (.many es)) from rfl] at hsel
      rcases hsl : selLoop [] (a :: as) with _ | ⟨e, es⟩
      · rw [hsl] at hsel; cases hsel
      · rw [hsl] at hsel
        cases es with
        | nil =>
          cases hsel
          simp [selEntries]
        | cons e2 es2 =>
          cases hsel
          have hnd := (selLoop_nodup (a :: as) []).1
          rw [hsl] at hnd
          simpa [selEntries] using hnd
  | vstr s => cases hsel
  | vnum n => cases hsel
  | vbool b => cases hsel
  | vnull => cases hsel
  | vundefined => cases hsel

/-- Witness for C6 at a concrete input. -/
theorem C6_selector_dedup_witness :
    (([SelectorEntry.label_asym_id "A", SelectorEntry.auth_asym_id "A"].map
        selKey).Nodup) :=
  C6_selector_dedup.2.2.2 (.varr [.vstr "A", .vstr "A"])
    (.many [.label_asym_id "A", .auth_asym_id "A"]) (by decide)

/-- Claim C9: `makeChainSelector` returns either null or a list of exactly
`2 * d` alternatives, where `d` is the number of distinct non-empty trimmed
tokens of the input; the result never has length one, so the documented
collapse to a single (non-list) selector object never occurs. -/
theorem C9_selector_arity (cs : List JSVal) :
    (distinctCount cs = 0 → makeChainSelector (.varr cs) = none) ∧
    (0 < distinctCount cs →
      ∃ es, makeChainSelector (.varr cs) = some (.many es) ∧
        es.length = 2 * distinctCount cs) ∧
    (∀ e, makeChainSelector (.varr cs) ≠ some (.one e)) := by
  have hlen := selLoop_length_distinct cs
  refine ⟨?_, ?_, ?_⟩
  · intro h0
    cases cs with
    | nil => rfl
    | cons a as =>
      rw [show makeChainSelector (.varr (a :: as)) =
          (match selLoop [] (a :: as) with
           | [] => none
           | [e] => some (.one e)
           | es => some (.many es)) from rfl]
      rcases hsl : selLoop [] (a :: as) with _ | ⟨e, es⟩
      · rfl
      · rw [hsl, h0] at hlen
        simp at hlen
  · intro hpos
    cases cs with
    | nil =>
      exfalso
      have : distinctCount ([] : List JSVal) = 0 := by
        simp [distinctCount, groupTokens]
      omega
    | cons a as =>
      rcases hsl : selLoop [] (a :: as) with _ | ⟨e, es⟩
      · rw [hsl] at hlen
        simp only [List.length_nil] at hlen
        omega
      · cases es with
        | nil =>
          rw [hsl] at hlen
          simp only [List.length_singleton] at hlen
          omega
        | cons e2 es2 =>
          refine ⟨e :: e2 :: es2, ?_, ?_⟩
          · rw [show makeChainSelector (.varr (a :: as)) =
                (match selLoop [] (a :: as) with
                 | [] => none
                 | [e] => some (.one e)
                 | es => some (.many es)) from rfl, hsl]
          · rw [← hlen, hsl]
  · intro e hone
    cases cs with
    | nil => cases hone
    | cons a as =>
      rw [show makeChainSelector (.varr (a :: as)) =
          (match selLoop [] (a :: as) with
           | [] => none
           | [e] => some (.one e)
           | es => some (.many es)) from rfl] at hone
      rcases hsl : selLoop [] (a :: as) with _ | ⟨e1, es⟩
      · rw [hsl] at hone; cases hone
      · rw [hsl] at hone
        cases es with
        | nil =>
          rw [hsl] at hlen
          simp only [List.length_singleton] at hlen
          omega
        | cons e2 es2 => cases hone

/-- Claim C10: every group in the output of `normalizeChainGroups` is
non-empty with non-empty trimmed tokens, so `makeChainSelector` is non-null
on it, the null-selector skip branch of `addChainRepresentation` is
unreachable, and every normalized group produces exactly one scene
component in each role loop of `applyColorPlan`. -/
theorem C10_no_null_selectors (v : JSVal) (name : String) (idx : Nat) :
    (∀ g ∈ normalizeChainGroups v,
        makeChainSelector (.varr (g.map .vstr)) ≠ none ∧
        ∀ type color op, addChainRep g type color op ≠ none) ∧
    (proteinLoop idx (normalizeChainGroups v)).length =
      (normalizeChainGroups v).length ∧
    (nucleicLoop (normalizeChainGroups v)).length =
      (normalizeChainGroups v).length ∧
    (ligandLoop name idx (normalizeChainGroups v)).length =
      (normalizeChainGroups v).length ∧
    (ionLoop (normalizeChainGroups v)).length =
      (normalizeChainGroups v).length ∧
    (otherLoop (normalizeChainGroups v)).length =
      (normalizeChainGroups v).length := by
  have hgood := normalizeChainGroups_good v
  refine ⟨?_, loops_length _ hgood idx name⟩
  intro g hg
  constructor
  · obtain ⟨sel, hsel⟩ := makeChainSelector_good g (hgood g hg)
    simp [hsel]
  · intro ty col op
    obtain ⟨s, hs⟩ := addChainRep_good g (hgood g hg) ty col op
    simp [hs]

/-- Witness for C10 at a concrete input. -/
theorem C10_no_null_selectors_witness :
    makeChainSelector (.varr (["A"].map .vstr)) ≠ none :=
  ((C10_no_null_selectors (.varr [.varr [.vstr "A"]]) "L" 0).1 ["A"]
    (by decide)).1

/-- Witness for C9 at a concrete input. -/
theorem C9_selector_arity_witness :
    ∃ es, makeChainSelector (.varr [.vstr "A", .vstr "B"]) = some (.many es) ∧
      es.length = 2 * distinctCount [.vstr "A", .vstr "B"] :=
  (C9_selector_arity [.vstr "A", .vstr "B"]).2.1 (by decide)

/-- Counterexample to claim C3 as stated: with three ligand groups, the
third group's component receives the 3rd ligand-palette color `#e11d48`,
not the 1st (`#db2777`); the palette has five colors, so cycling back to
the 1st color happens only at the sixth group.  The label is nevertheless
attached to the first group's component only. -/
theorem C3_counterexample :
    (applyColorPlan
        { ligand_chain_groups :=
            .varr [.varr [.vstr "A"], .varr [.vstr "B"], .varr [.vstr "C"]] }
        "LIG").map (fun c => (c.color, c.label)) =
      [("#2563eb", none), ("#f59e0b", none),
       ("#db2777", some "LIG"), ("#c026d3", none), ("#e11d48", none),
       ("#14b8a6", none), ("#84cc16", none)] ∧
    ("#e11d48" : String) ≠ "#db2777" := by
  constructor
  · rfl
  · decide

/-- Claim C3 (amended): with a supplied ligand display name and non-empty
normalized ligand groups, the label is attached to the first group's
component only, and the n-th group receives the (n mod 5)-th color of the
5-color ligand palette (so the 1st and 2nd groups receive the 1st and 2nd
colors, the 3rd group the 3rd color, and the 6th group reuses the 1st);
with no explicit groups, the label is attached to the fallback component
selecting the built-in 'ligand' role. -/
theorem C3_ligand_plan (plan : ColorPlan) (name : String) (hname : name ≠ "") :
    (normalizeChainGroups plan.ligand_chain_groups = [] →
      ligandComponents plan name =
        [⟨.builtin "ligand", "ball_and_stick", "#db2777", none, some name⟩]) ∧
    (normalizeChainGroups plan.ligand_chain_groups ≠ [] →
      (ligandComponents plan name).length =
        (normalizeChainGroups plan.ligand_chain_groups).length ∧
      ∀ i comp, (ligandComponents plan name).get? i = some comp →
        comp.repType = "ball_and_stick" ∧
        comp.color = ligandPalette.getD (i % 5) "" ∧
        comp.label = (if i = 0 then some name else none)) := by
  constructor
  · intro hempty
    rw [ligandComponents]
    rw [hempty]
    simp [hname]
  · intro hne
    have hgood := normalizeChainGroups_good plan.ligand_chain_groups
    have hpos : (normalizeChainGroups plan.ligand_chain_groups).length > 0 :=
      List.length_pos.mpr hne
    rw [ligandComponents, if_pos hpos]
    refine ⟨(loops_length _ hgood 0 name).2.2.1, ?_⟩
    intro i comp hcomp
    obtain ⟨h1, h2, _, h4⟩ := ligandLoop_fields _ hgood 0 name i comp hcomp
    refine ⟨h1, by simpa using h2, ?_⟩
    rw [h4]
    by_cases hi : i = 0
    · subst hi
      rw [if_pos ⟨hname, rfl⟩, if_pos rfl]
    · rw [if_neg (by simp [hi]), if_neg hi]

/-- Witness for C3 (amended) at a concrete input. -/
theorem C3_ligand_plan_witness :
    (ligandComponents { ligand_chain_groups := .varr [.varr [.vstr "A"]] }
        "LIG").length =
      (normalizeChainGroups
        (ColorPlan.ligand_chain_groups
          { ligand_chain_groups := .varr [.varr [.vstr "A"]] })).length :=
  ((C3_ligand_plan { ligand_chain_groups := .varr [.varr [.vstr "A"]] } "LIG"
    (by decide)).2 (by decide)).1

/-- On a successfully decoded sample, the sniff result is exactly the
sentinel test on the whitespace-stripped prefix. -/
theorem looksLike_of_sample (url : String) (s : List Char)
    (h : dataUrlSample url = some s) :
    looksLikeTextCifDataUrl url = hasCifSentinel (s.dropWhile jsWs) := by
  rw [looksLikeTextCifDataUrl, h]
  dsimp only
  cases htr : s.dropWhile jsWs with
  | nil => rw [if_pos rfl]; decide
  | cons a t => rw [if_neg (by simp)]

/-- A failed decode never reports textual content. -/
theorem looksLike_of_no_sample (url : String)
    (h : dataUrlSample url = none) :
    looksLikeTextCifDataUrl url = false := by
  rw [looksLikeTextCifDataUrl, h]

/-- Claim C2: for an inline data-URL source declared as the binary format
'bcif': when the decoded payload prefix, stripped of leading whitespace,
starts with a textual CIF sentinel, the effective load format of both
loading strategies resolves to 'mmcif' and the binary flag is cleared; when
it has no sentinel, the format stays 'bcif' and the binary flag stays set;
any decode failure counts as not textual. -/
theorem C2_sniff_downgrade (fmt : String) (url : String)
    (hfmt : (⟨jsLowerChars (if fmt = "" then "mmcif" else fmt).data⟩ : String)
      = "bcif")
    (hinl : isInlineDataUrl (some url) = true) :
    (∀ s, dataUrlSample url = some s →
      hasCifSentinel (s.dropWhile jsWs) = true →
        mvsNormalizedFormat fmt (some url) = "mmcif" ∧
        directLoadParams fmt (some url) = ("mmcif", false)) ∧
    (∀ s, dataUrlSample url = some s →
      hasCifSentinel (s.dropWhile jsWs) = false →
        mvsNormalizedFormat fmt (some url) = "bcif" ∧
        directLoadParams fmt (some url) = ("bcif", true)) ∧
    (dataUrlSample url = none →
      looksLikeTextCifDataUrl url = false ∧
      mvsNormalizedFormat fmt (some url) = "bcif" ∧
      directLoadParams fmt (some url) = ("bcif", true)) := by
  have hdown : looksLikeTextCifDataUrl url = true →
      mvsNormalizedFormat fmt (some url) = "mmcif" ∧
      directLoadParams fmt (some url) = ("mmcif", false) := by
    intro hlook
    constructor
    · rw [mvsNormalizedFormat]
      set nf : String := ⟨jsLowerChars (if fmt = "" then "mmcif" else fmt).data⟩
        with hnf
      split
      · rfl
      · next hcond => exact absurd ⟨hfmt, hinl, hlook⟩ hcond
    · rw [directLoadParams]
      set nf : String := ⟨jsLowerChars (if fmt = "" then "mmcif" else fmt).data⟩
        with hnf
      split
      · rfl
      · next hcond => exact absurd ⟨hfmt, hinl, hlook⟩ hcond
  have hkeep : looksLikeTextCifDataUrl url = false →
      mvsNormalizedFormat fmt (some url) = "bcif" ∧
      directLoadParams fmt (some url) = ("bcif", true) := by
    intro hlook
    constructor
    · rw [mvsNormalizedFormat]
      set nf : String := ⟨jsLowerChars (if fmt = "" then "mmcif" else fmt).data⟩
        with hnf
      split
      · next hcond =>
          exfalso
          have h3 := hcond.2.2
          rw [show (some url).getD "" = url from rfl, hlook] at h3
          cases h3
      · exact hfmt
    · rw [directLoadParams]
      set nf : String := ⟨jsLowerChars (if fmt = "" then "mmcif" else fmt).data⟩
        with hnf
      split
      · next hcond =>
          exfalso
          have h3 := hcond.2.2
          rw [show (some url).getD "" = url from rfl, hlook] at h3
          cases h3
      · rw [hfmt]
        simp
  refine ⟨?_, ?_, ?_⟩
  · intro s hs hsent
    exact hdown (by rw [looksLike_of_sample url s hs, hsent])
  · intro s hs hsent
    exact hkeep (by rw [looksLike_of_sample url s hs, hsent])
  · intro hnone
    have hlook := looksLike_of_no_sample url hnone
    exact ⟨hlook, (hkeep hlook).1, (hkeep hlook).2⟩

/-- Witness for C2 at a concrete textual inline data URL. -/
theorem C2_sniff_downgrade_witness :
    mvsNormalizedFormat "bcif" (some "data:text/plain,data_demo") = "mmcif" ∧
    directLoadParams "bcif" (some "data:text/plain,data_demo") =
      ("mmcif", false) :=
  (C2_sniff_downgrade "bcif" "data:text/plain,data_demo" (by decide)
    (by decide)).1 "data_demo".data (by decide) (by decide)

/-- Claim C5: on a node never connected to a document, initialization
signals the terminal attachment timeout after exactly 20 deferred attempts
(not more, not fewer), clears the container's rendering flag and sets the
visible loading text to 'Failed to create viewer'. -/
theorem C5_attachment_timeout (inp : MolstarInputs) (env : ViewerEnv)
    (c0 : Container) (u : String)
    (hnc : ∀ n, env.connectedAt n = false)
    (hurl : inp.url = some u) (hu : u ≠ "")
    (hv : inp.hasViewerEl = true) (hle : inp.hasLoadingEl = true)
    (hr : c0.rendered = false) (hg : c0.rendering = false) :
    initMolstarOne inp env c0 =
      ({ c0 with rendering := false,
                 loadingText := some "Failed to create viewer",
                 loadingDisplay := some "block" },
       List.replicate 20 .deferAttempt) := by
  rw [initMolstarOne, if_neg (by simp [hr, hg])]
  simp only [hurl]
  have hbool : (u != "") = true := by simp [hu]
  rw [if_neg (by simp [hbool, hv])]
  rw [gateLoop_never_connected inp env hnc 20 0]
  simp [hle]

/-- Witness for C5 at a concrete never-connected environment. -/
theorem C5_attachment_timeout_witness :
    initMolstarOne { url := some "u" } { connectedAt := fun _ => false } {} =
      ({ rendering := false, loadingText := some "Failed to create viewer",
         loadingDisplay := some "block" },
       List.replicate 20 .deferAttempt) :=
  C5_attachment_timeout { url := some "u" } { connectedAt := fun _ => false }
    {} "u" (fun _ => rfl) rfl (by decide) rfl rfl rfl rfl

/-- Claim C7: re-invoking initialization on a container already marked
rendered or rendering is a no-op (state unchanged, no events, hence no
second viewer instance); and when initialization does proceed, the
rendering flag is set synchronously before entering the attachment gate,
which contains every suspension point. -/
theorem C7_idempotent_init (inp : MolstarInputs) (env : ViewerEnv)
    (c0 : Container) :
    ((c0.rendered = true ∨ c0.rendering = true) →
      initMolstarOne inp env c0 = (c0, [])) ∧
    (∀ u, c0.rendered = false → c0.rendering = false →
      inp.url = some u → u ≠ "" → inp.hasViewerEl = true →
      initMolstarOne inp env c0 =
        gateLoop inp env { c0 with rendering := true } 20 0) := by
  constructor
  · intro h
    rw [initMolstarOne, if_pos (by rcases h with h | h <;> simp [h])]
  · intro u hr hg hurl hu hv
    rw [initMolstarOne, if_neg (by simp [hr, hg])]
    simp only [hurl]
    have hbool : (u != "") = true := by simp [hu]
    rw [if_neg (by simp [hbool, hv])]

/-- Witness for C7 at a concrete rendered container. -/
theorem C7_idempotent_init_witness :
    initMolstarOne {} { connectedAt := fun _ => true } { rendered := true } =
      ({ rendered := true }, []) :=
  (C7_idempotent_init {} { connectedAt := fun _ => true }
    { rendered := true }).1 (Or.inl rfl)

/-- Claim C8: every terminating exit path of initialization leaves the
rendering-in-progress flag cleared (a failure leaves the container
unrendered, permitting retry), and the state never transitions backward
from rendered. -/
theorem C8_exit_paths (inp : MolstarInputs) (env : ViewerEnv)
    (c0 : Container) :
    (c0.rendering = false → (initMolstarOne inp env c0).1.rendering = false) ∧
    (c0.rendered = true → (initMolstarOne inp env c0).1.rendered = true) := by
  constructor
  · intro hg
    rw [initMolstarOne]
    by_cases h : (c0.rendered = true ∨ c0.rendering = true)
    · rw [if_pos h]; exact hg
    · rw [if_neg h]
      dsimp only
      split
      · simpa using hg
      · exact (gateLoop_state inp env 20 0 _).1
  · intro hr
    rw [initMolstarOne, if_pos (Or.inl hr)]
    exact hr

/-- Witness for C8 at a concrete container. -/
theorem C8_exit_paths_witness :
    (initMolstarOne { url := some "u" } { connectedAt := fun _ => false }
        {}).1.rendering = false :=
  (C8_exit_paths { url := some "u" } { connectedAt := fun _ => false } {}).1 rfl

/-- Counterexample to claim C1 as stated: when the MVS path throws AND the
direct load itself also throws, the direct path is still attempted exactly
once afterward, but the recorded loaded-path attribute is NOT set to
'direct' (it stays unset), contradicting the unconditional claim. -/
theorem C1_counterexample :
    (initMolstarOne { url := some "u" }
        { connectedAt := fun _ => true, mvsThrows := true,
          directThrows := true } {}).1.loadedPath = none ∧
    (initMolstarOne { url := some "u" }
        { connectedAt := fun _ => true, mvsThrows := true,
          directThrows := true } {}).2 =
      [.viewerCreated, .mvsAttempt, .directCall "u" "mmcif" false] := by
  constructor <;> rfl

/-- Claim C1 (amended): when the MVS (scene-description) path is
unavailable or throws, the exception is not propagated and the direct path
is attempted exactly once afterward, with the same sniff-normalized format
as the MVS attempt would have used; if the direct load itself completes
without throwing, the recorded loaded-path is set to 'direct'. -/
theorem C1_mvs_fallback (inp : MolstarInputs) (env : ViewerEnv)
    (c0 : Container) (u : String)
    (hurl : inp.url = some u) (hu : u ≠ "") (hv : inp.hasViewerEl = true)
    (hr : c0.rendered = false) (hg : c0.rendering = false)
    (hconn : env.connectedAt 0 = true)
    (hcs : env.createSyncThrows = false) (hcr : env.createResolves = true)
    (hld : env.hasLoadFromUrl = true)
    (hmvs : env.mvsAvailable = false ∨ env.mvsThrows = true) :
    (initMolstarOne inp env c0).2 =
      .viewerCreated ::
        ((if env.mvsAvailable then [.mvsAttempt] else []) ++
         [.directCall u (mvsNormalizedFormat (formatOf inp) inp.url)
            (directLoadParams (formatOf inp) inp.url).2]) ∧
    (env.directThrows = false →
      (initMolstarOne inp env c0).1.loadedPath = some "direct") ∧
    (directLoadParams (formatOf inp) inp.url).1 =
      mvsNormalizedFormat (formatOf inp) inp.url := by
  have hthen : ∀ c, thenBody inp env c =
      ((if env.directThrows = true then loadRejected inp c
        else finalizeLoad inp
          { c with
            loadedFormat := some (directLoadParams (formatOf inp) inp.url).1,
            loadedPath := some "direct" }),
       (if env.mvsAvailable then [.mvsAttempt] else []) ++
         [.directCall u (directLoadParams (formatOf inp) inp.url).1
            (directLoadParams (formatOf inp) inp.url).2]) := by
    intro c
    rcases hmvs with hma | hmt
    · cases hdt : env.directThrows <;>
        simp [thenBody, loadWithMvs, loadDirectly, hma, hld, hdt, hurl]
    · cases hma : env.mvsAvailable <;> cases hdt : env.directThrows <;>
        simp [thenBody, loadWithMvs, loadDirectly, hma, hmt, hld, hdt, hurl]
  have hrun : initMolstarOne inp env c0 =
      ((thenBody inp env { c0 with rendering := true }).1,
       .viewerCreated :: (thenBody inp env { c0 with rendering := true }).2) := by
    rw [initMolstarOne, if_neg (by simp [hr, hg])]
    simp only [hurl]
    have hbool : (u != "") = true := by simp [hu]
    rw [if_neg (by simp [hbool, hv])]
    rw [gateLoop, if_pos hconn]
    rw [tryBlock, if_neg (by simp [hcs]), if_neg (by simp [hcr])]
  refine ⟨?_, ?_, directParams_fst_eq_mvsFormat _ _⟩
  · rw [hrun]
    simp only [hthen]
    rw [directParams_fst_eq_mvsFormat]
  · intro hdt
    rw [hrun]
    simp only [hthen]
    rw [if_neg (by simp [hdt])]
    simp [finalizeLoad]

/-- Witness for C1 (amended) at a concrete environment with the MVS
extension unavailable. -/
theorem C1_mvs_fallback_witness :
    (initMolstarOne { url := some "u" }
        { connectedAt := fun _ => true, mvsAvailable := false }
        {}).1.loadedPath = some "direct" :=
  (C1_mvs_fallback { url := some "u" }
    { connectedAt := fun _ => true, mvsAvailable := false } {} "u"
    rfl (by decide) rfl rfl rfl rfl rfl rfl rfl (Or.inl rfl)).2.1 rfl

end Refua
